import Mathlib

/-!
Verification development for the console-buddy terminal chat agent.

The development shallowly embeds the tool-augmented conversation engine
(`ContinueConversation` and `buildHistory` in pkg/gemini), the tool
dispatcher (`ToolExecutor.Execute` in pkg/gemini/tools.go) and the UI
event loop update function (`Model.Update` in pkg/tui/tui.go).

Modelling conventions:
- The model stream is an oracle `Nat → NextResult` giving the outcome of
  the k-th `iter.Next()` call.  Replacing the stream handle after a tool
  round-trip keeps the pulls linear, so a single oracle indexed by the
  total pull count subsumes every stream behaviour (any concrete trace is
  one such oracle).
- The tool executor used by the engine is an arbitrary stateful oracle
  `σ → FunctionCall → (String × Option GoError) × σ`, matching the Go
  signature `Execute(fc) (string, error)` with the mutable receiver.
- Collaborator calls of the dispatcher (command runner, os file calls,
  project analyzer, code generator, json codec) are oracle fields of a
  `World`, and every such invocation is recorded in an effect trace; the
  spec itself scopes those collaborators out as external.
- The per-fragment UI callback `stepCallback(title, content)` is recorded
  as an ordered event list.
-/

/-- GoValue models a value of `map[string]interface{}` tool arguments as
far as the code observes them: the code only ever applies the type
assertion `.(string)` and the `== nil` test, so strings, null and a
single catch-all for every other value suffice. -/
inductive GoValue
  | str (s : String)
  | null
  | other
deriving DecidableEq

/-- FunctionCall mirrors `genai.FunctionCall`: a tool name and its
argument mapping. -/
structure FunctionCall where
  name : String
  args : List (String × GoValue)
deriving DecidableEq

/-- GPart mirrors the `genai.Part` variants the engine switches on:
`genai.Text` and `genai.FunctionCall`. -/
inductive GPart
  | text (s : String)
  | functionCall (fc : FunctionCall)
deriving DecidableEq

/-- Content mirrors `genai.Content` (Parts and Role). -/
structure Content where
  parts : List GPart
  role : String
deriving DecidableEq

/-- Candidate mirrors `genai.Candidate` as far as the engine reads it:
the possibly-nil Content pointer. -/
structure Candidate where
  content : Option Content

/-- GenResponse mirrors `genai.GenerateContentResponse` as far as the
engine reads it: the candidate list. -/
structure GenResponse where
  candidates : List Candidate

/-- GoError models a Go error value.  `deadlineExceeded` is
`context.DeadlineExceeded` (what a stream read returns once the turn
context of `context.WithTimeout` expires), `ofString` is an error built
by `fmt.Errorf` from a message, and `streamError` is the wrapping
`fmt.Errorf("stream error: %w", err)` applied by the engine. -/
inductive GoError
  | deadlineExceeded
  | ofString (s : String)
  | streamError (e : GoError)
deriving DecidableEq

/-- errorText mirrors the `Error()` method on the modelled errors. -/
def GoError.errorText : GoError → String
  | .deadlineExceeded => "context deadline exceeded"
  | .ofString s => s
  | .streamError e => "stream error: " ++ e.errorText

/-- NextResult is the outcome of one `iter.Next()` call: the
`iterator.Done` sentinel, a real error, or a response (possibly nil). -/
inductive NextResult
  | done
  | failure (e : GoError)
  | next (resp : Option GenResponse)

/-- FunctionResponse mirrors the payload the engine sends back to the
model after a tool call: `genai.FunctionResponse` with `Name` and the
response map `{"output": output}` — the map has exactly the one key
`"output"`, so the payload is the name and that one string. -/
structure FunctionResponse where
  name : String
  output : String
deriving DecidableEq

/-- goValueJson is a simplified stand-in for `json.Marshal` on a single
argument value (string escaping and the shape of non-string values are
abstracted; no claim depends on this rendering). -/
def goValueJson : GoValue → String
  | .str s => "\"" ++ s ++ "\""
  | .null => "null"
  | .other => "0"

/-- argsJson is a simplified stand-in for `json.Marshal(p.Args)` used
only to build the human-readable "Tool Call" status line. -/
def argsJson (args : List (String × GoValue)) : String :=
  "\x7b" ++
    String.intercalate ","
      (args.map (fun kv => "\"" ++ kv.1 ++ "\":" ++ goValueJson kv.2)) ++
    "\x7d"

/-- maxLoopIterations is the hard limit on tool-call cycles from
pkg/gemini (part_006). -/
def maxLoopIterations : Nat := 15

/-- fallbackReply is the fixed default message returned when the model
finishes without generating any text response. -/
def fallbackReply : String :=
  "The model finished its work without providing a direct response."

/-- EngineState carries the loop-local variables of
`ContinueConversation` (`responseBuilder`, `lastTextChunk`,
`hasResponded`) together with observables: the ordered `stepCallback`
events, the FunctionResponse payloads sent back to the model, the number
of `iter.Next()` calls performed, and the parts processed so far (ghost
instrumentation used only to state theorems). -/
structure EngineState where
  responseBuilder : String
  lastTextChunk : String
  hasResponded : Bool
  events : List (String × String)
  sent : List FunctionResponse
  pulls : Nat
  processed : List GPart

/-- processParts mirrors the inner `for _, part := range
resp.Candidates[0].Content.Parts` loop of `ContinueConversation`: text
parts are appended to the builder and emitted as a "Response" event only
when they differ from the immediately preceding chunk; function-call
parts emit the "Tool Call" line, invoke the executor, emit "Tool Error"
on executor error and "Tool Output", then send the FunctionResponse
(whose map holds only the output string) back to the model. -/
def processParts {σ : Type} (exec : σ → FunctionCall → (String × Option GoError) × σ) :
    List GPart → σ → EngineState → EngineState × σ
  | [], ex, st => (st, ex)
  | GPart.text s :: rest, ex, st =>
    let st1 : EngineState :=
      { st with
        responseBuilder := st.responseBuilder ++ s
        events := if s != st.lastTextChunk then st.events ++ [("Response", s)] else st.events
        lastTextChunk := if s != st.lastTextChunk then s else st.lastTextChunk
        hasResponded := true
        processed := st.processed ++ [GPart.text s] }
    processParts exec rest ex st1
  | GPart.functionCall fc :: rest, ex, st =>
    let r := exec ex fc
    let output := r.1.1
    let errEvents : List (String × String) :=
      match r.1.2 with
      | some e => [("Tool Error", e.errorText)]
      | none => []
    let st1 : EngineState :=
      { st with
        events := st.events ++
          [("Tool Call", "\nExecuting: " ++ fc.name ++ " with args: " ++ argsJson fc.args)] ++
          errEvents ++ [("Tool Output", output)]
        sent := st.sent ++ [⟨fc.name, output⟩]
        processed := st.processed ++ [GPart.functionCall fc] }
    processParts exec rest r.2 st1

/-- LoopOut is the outcome of the bounded stream loop: the final engine
state, the error returned from inside the loop (if any), and the final
executor state. -/
structure LoopOut (σ : Type) where
  st : EngineState
  err : Option GoError
  ex : σ

/-- consumeResponse mirrors the guard `if resp == nil ||
len(resp.Candidates) == 0 || resp.Candidates[0].Content == nil {
continue }` followed by the inner parts loop: a nil or empty response is
skipped unchanged, otherwise the parts of candidate 0 are processed. -/
def consumeResponse {σ : Type} (exec : σ → FunctionCall → (String × Option GoError) × σ)
    (resp : Option GenResponse) (ex : σ) (st : EngineState) : EngineState × σ :=
  match resp with
  | none => (st, ex)
  | some r =>
    match r.candidates with
    | [] => (st, ex)
    | c :: _ =>
      match c.content with
      | none => (st, ex)
      | some content => processParts exec content.parts ex st

/-- engineLoop mirrors `for i := 0; i < maxLoopIterations; i++` of
`ContinueConversation`: each iteration performs exactly one
`iter.Next()`; `iterator.Done` breaks out cleanly, any other error
returns immediately wrapped as a stream error, and otherwise the
response is consumed and the loop continues. -/
def engineLoop {σ : Type} (stream : Nat → NextResult)
    (exec : σ → FunctionCall → (String × Option GoError) × σ) :
    Nat → σ → EngineState → LoopOut σ
  | 0, ex, st => ⟨st, none, ex⟩
  | fuel + 1, ex, st =>
    let res := stream st.pulls
    let st1 : EngineState := { st with pulls := st.pulls + 1 }
    match res with
    | NextResult.done => ⟨st1, none, ex⟩
    | NextResult.failure e => ⟨st1, some (GoError.streamError e), ex⟩
    | NextResult.next resp =>
      let pr := consumeResponse exec resp ex st1
      engineLoop stream exec fuel pr.2 pr.1

/-- buildHistory mirrors `buildHistory` of pkg/gemini (part_006): the
history slice is consumed two entries at a time, entry 2i becoming a
user turn and entry 2i+1 (or the empty string when the slice ends) the
paired model turn. -/
def buildHistoryAux : List String → List Content
  | [] => []
  | [u] => [⟨[GPart.text u], "user"⟩, ⟨[GPart.text ""], "model"⟩]
  | u :: m :: rest =>
    ⟨[GPart.text u], "user"⟩ :: ⟨[GPart.text m], "model"⟩ :: buildHistoryAux rest

/-- buildHistory returns nil for an empty history, and otherwise the
paired turn list of `buildHistoryAux`. -/
def buildHistory (history : List String) : List Content :=
  if history.isEmpty then [] else buildHistoryAux history

/-- TurnResult is the observable outcome of `ContinueConversation`: the
returned reply and error, plus the recorded event list, sent
FunctionResponse payloads, pull count, processed parts (ghost), the chat
history handed to the model session, and the final executor state. -/
structure TurnResult (σ : Type) where
  reply : String
  err : Option GoError
  events : List (String × String)
  sent : List FunctionResponse
  pulls : Nat
  processed : List GPart
  chatHistory : List Content
  execState : σ

/-- initialEngineState holds the loop variables at entry: empty builder,
empty last chunk, no response yet, and the initial
`stepCallback("Thinking...", "")` event already emitted. -/
def initialEngineState : EngineState :=
  ⟨"", "", false, [("Thinking...", "")], [], 0, []⟩

/-- ContinueConversation embeds the engine of pkg/gemini (part_006).
The system-instruction attachment for an empty history and the initial
`SendMessageStream(ctx, genai.Text(input))` are collaborator-facing and
subsumed by the stream oracle; the bounded loop, the fallback reply for
a turn that produced no text, and the error path that returns the empty
reply are modelled exactly. -/
def ContinueConversation {σ : Type} (history : List String) (input : String)
    (stream : Nat → NextResult)
    (exec : σ → FunctionCall → (String × Option GoError) × σ) (ex : σ) : TurnResult σ :=
  let _ := input
  let out := engineLoop stream exec maxLoopIterations ex initialEngineState
  match out.err with
  | some e =>
    ⟨"", some e, out.st.events, out.st.sent, out.st.pulls, out.st.processed,
      buildHistory history, out.ex⟩
  | none =>
    if !out.st.hasResponded then
      ⟨fallbackReply, none, out.st.events, out.st.sent, out.st.pulls, out.st.processed,
        buildHistory history, out.ex⟩
    else
      ⟨out.st.responseBuilder, none, out.st.events, out.st.sent, out.st.pulls,
        out.st.processed, buildHistory history, out.ex⟩

/-- textsOf lists the text fragments among a sequence of parts, in
order, duplicates included. -/
def textsOf (ps : List GPart) : List String :=
  ps.filterMap fun p =>
    match p with
    | GPart.text s => some s
    | GPart.functionCall _ => none

/-- callNames lists the tool names of the function-call parts among a
sequence of parts, in order. -/
def callNames (ps : List GPart) : List String :=
  ps.filterMap fun p =>
    match p with
    | GPart.text _ => none
    | GPart.functionCall fc => some fc.name

/-- concatAll concatenates a list of strings (the accumulated reply is
the concatenation of all processed text fragments). -/
def concatAll : List String → String
  | [] => ""
  | s :: rest => s ++ concatAll rest

/-- responseTexts extracts, in order, the contents of the "Response"
events (the TextChunk events of the spec) from the event list. -/
def responseTexts (events : List (String × String)) : List String :=
  (events.filter (fun ev => ev.1 == "Response")).map (fun ev => ev.2)

/-- TuiModel carries the session state of the UI event loop
(pkg/tui/tui.go `Model`) that the modelled messages touch: the text
input value, the loading flag, the conversation history, the contents of
the `currentResponse` builder, and `lastRendered`.  The viewport, the
spinner, the help widget and the window size are opaque render targets
and are not modelled. -/
structure TuiModel where
  textInput : String
  loading : Bool
  conversationHistory : List String
  currentResponse : String
  lastRendered : String
deriving DecidableEq

/-- TuiCmd models the `tea.Cmd` values returned by `Model.Update`:
no command (nil), quitting, the closure that produces
`startConversationMsg` with the current input, the
`stream.waitForNextMsg` command, and `textinput.Blink`. -/
inductive TuiCmd
  | none
  | quit
  | emitStartConversation (input : String)
  | waitForNextMsg
  | blink
deriving DecidableEq

/-- TuiMsg models the incoming `tea.Msg` variants handled by
`Model.Update` that drive a turn: the Enter key, Ctrl-C, the internal
`startConversationMsg`, and the bridge messages `ErrMsg`, `SuccessMsg`,
`StreamMsg`, `finalMsg`. -/
inductive TuiMsg
  | keyEnter
  | keyCtrlC
  | startConversation (input : String)
  | errMsg (e : GoError)
  | successMsg (reply : String)
  | streamMsg (title : String) (content : String)
  | finalMsg

/-- renderView mirrors `Model.renderView`: when the builder content
changed, the viewport is refilled (opaque) and `lastRendered` is updated
to the new content. -/
def renderView (m : TuiModel) : TuiModel :=
  if m.currentResponse != m.lastRendered then
    { m with lastRendered := m.currentResponse }
  else m

/-- TuiModel.update embeds `Model.Update` for the modelled messages.
Enter while loading returns the model unchanged with no command; Enter
while idle sets loading, resets the `currentResponse` builder and
`lastRendered`, and returns the closure producing
`startConversationMsg` with the current input (the input box itself is
not touched here).  `startConversationMsg` spawns the conversation
goroutine (modelled separately by `ContinueConversation`) and waits for
the next bridge message.  `ErrMsg` stops loading and appends the error
line.  `SuccessMsg` commits `(input, reply)` to the history, persists it
via the external history collaborator (out of scope), and resets the
text input.  `StreamMsg` appends the chunk. `finalMsg` stops loading. -/
def TuiModel.update (m : TuiModel) : TuiMsg → TuiModel × TuiCmd
  | TuiMsg.keyEnter =>
    if m.loading then (m, TuiCmd.none)
    else
      ({ m with loading := true, currentResponse := "", lastRendered := "" },
        TuiCmd.emitStartConversation m.textInput)
  | TuiMsg.keyCtrlC => (m, TuiCmd.quit)
  | TuiMsg.startConversation _ => (m, TuiCmd.waitForNextMsg)
  | TuiMsg.errMsg e =>
    (renderView { m with
        loading := false
        currentResponse := m.currentResponse ++ "\nError: " ++ e.errorText },
      TuiCmd.none)
  | TuiMsg.successMsg reply =>
    ({ m with
        conversationHistory := m.conversationHistory ++ [m.textInput, reply]
        textInput := "" },
      TuiCmd.waitForNextMsg)
  | TuiMsg.streamMsg _ content =>
    (renderView { m with currentResponse := m.currentResponse ++ content },
      TuiCmd.waitForNextMsg)
  | TuiMsg.finalMsg => ({ m with loading := false }, TuiCmd.blink)

/-- ProjectInfo carries the fields of `agent.ProjectInfo` that the
dispatcher reads (language, framework, package manager, build tool, test
framework, scripts). -/
structure ProjectInfo where
  language : String
  framework : String
  packageManager : String
  buildTool : String
  testFramework : String
  scripts : List (String × String)
deriving DecidableEq

/-- AgentField mirrors `agent.Field` as passed through to the code
generator (the Tags map is never read by the dispatcher and is
omitted). -/
structure AgentField where
  name : String
  typeName : String
  description : String
deriving DecidableEq

/-- AppConfig carries the one `config.Config` field the dispatcher
consumes: the command allowlist. -/
structure AppConfig where
  allowedCommands : List String
deriving DecidableEq

/-- Effect records one collaborator invocation performed by the
dispatcher: a process run by the command runner, an os file-system call,
a project analysis, or a code-generator invocation.  The claims about
"no side effects" are stated as emptiness of this trace. -/
inductive Effect
  | runCommand (command : String)
  | fileWrite (path : String) (content : String)
  | fileRead (path : String)
  | fileRemove (path : String)
  | dirList (path : String)
  | projectAnalysis (path : String)
  | codeGen (kind : String) (name : String)
deriving DecidableEq

/-- World bundles the external collaborators the dispatcher calls into
(command execution, os file calls, the project analyzer, the json codec
and the code generator), each as an oracle giving that call its result.
The spec scopes all of these out as external interfaces. -/
structure World where
  runCommand : String → String × Option GoError
  writeFile : String → String → Option GoError
  readFile : String → Except GoError String
  remove : String → Option GoError
  readDir : String → Except GoError (List String)
  getwd : Except GoError String
  analyzeProject : String → Except GoError ProjectInfo
  marshalProjectInfo : ProjectInfo → Except GoError String
  parseFuncSpec : String → Option (List String × List String)
  parseClassSpec : String → Option (List AgentField)
  parseOptions : String → Option (List (String × GoValue))
  generateFunction : ProjectInfo → String → String → List String → List String → Except GoError String
  generateClass : ProjectInfo → String → String → List AgentField → Except GoError String
  generateTest : ProjectInfo → String → String → Except GoError String
  generateConfigFile : ProjectInfo → String → List (String × GoValue) → Except GoError String
  generateWebContent : ProjectInfo → String → List (String × GoValue) → Except GoError String
  suggestedFilename : ProjectInfo → String → String → String
  suggestedTestFilename : ProjectInfo → String → String

/-- goFields mirrors `strings.Fields`: the maximal runs of
non-whitespace characters. -/
def goFields (s : String) : List String :=
  (s.split Char.isWhitespace).filter (fun w => w ≠ "")

/-- ExecuteCommand embeds `commander.ExecuteCommand` (part_000): trim,
reject the empty command, lower-case the first token, check it against
the allowlist, and only then hand the command to the process runner.
The effect trace records the process run; a rejected command spawns no
process. -/
def ExecuteCommand (w : World) (command : String) (allowedCommands : List String) :
    (String × Option GoError) × List Effect :=
  let command := command.trim
  if command = "" then (("", some (GoError.ofString "empty command")), [])
  else
    let parts := goFields command
    let baseCmd := ((parts.head?).getD "").toLower
    let isAllowed := allowedCommands.contains baseCmd
    if !isAllowed then
      (("", some (GoError.ofString ("command \x27" ++ baseCmd ++ "\x27 is not allowed"))), [])
    else
      let res := w.runCommand command
      match res.2 with
      | some err =>
        ((res.1, some (GoError.ofString
            ("command execution failed: " ++ err.errorText ++ "\nOutput: " ++ res.1))),
          [Effect.runCommand command])
      | none => ((res.1, none), [Effect.runCommand command])

/-- ToolExecutor carries the dispatcher state: the config and the cached
project info and generator (`NewCodeGenerator` wraps the ProjectInfo it
was built from, so the cache is modelled by that ProjectInfo; the
analyzer field set in `NewToolExecutor` is never read by `Execute` and
is omitted). -/
structure ToolExecutor where
  config : AppConfig
  projectInfo : Option ProjectInfo
  generator : Option ProjectInfo
deriving DecidableEq

/-- ExecOutcome is the observable result of one dispatch: the output
string and error of `Execute`, the updated executor state, and the
ordered trace of collaborator invocations. -/
structure ExecOutcome where
  output : String
  err : Option GoError
  exec : ToolExecutor
  effects : List Effect

/-- lookupArg models reading `fc.Args[key]` from the argument map. -/
def lookupArg (args : List (String × GoValue)) (key : String) : Option GoValue :=
  (args.find? (fun kv => kv.1 == key)).map (fun kv => kv.2)

/-- argString models the Go type assertion `fc.Args[key].(string)`:
it succeeds exactly when the key is present with a string value. -/
def argString (args : List (String × GoValue)) (key : String) : Option String :=
  match lookupArg args key with
  | some (GoValue.str s) => some s
  | _ => none

/-- argStringD models the tolerant idiom `v, _ := fc.Args[key].(string)`
which yields the empty string when the assertion fails. -/
def argStringD (args : List (String × GoValue)) (key : String) : String :=
  (argString args key).getD ""

/-- isNilArg models `options[key] == nil` on a decoded json map: true
when the key is absent or its value is null. -/
def isNilArg (args : List (String × GoValue)) (key : String) : Bool :=
  match lookupArg args key with
  | none => true
  | some GoValue.null => true
  | some _ => false

/-- setArg models `options[key] = v` on the decoded json map. -/
def setArg (args : List (String × GoValue)) (key : String) (v : GoValue) :
    List (String × GoValue) :=
  if (args.find? (fun kv => kv.1 == key)).isSome then
    args.map (fun kv => if kv.1 == key then (kv.1, v) else kv)
  else args ++ [(key, v)]

/-- analyzeProject embeds the `analyzeProject` method of tools.go:
resolve "." through the working directory, run the analyzer, cache the
project info and a generator built from it, and format the result
(logging calls are an out-of-scope collaborator and not modelled). -/
def ToolExecutor.analyzeProject (e : ToolExecutor) (w : World) (path : String) : ExecOutcome :=
  let resolved : Except GoError String := if path = "." then w.getwd else Except.ok path
  match resolved with
  | Except.error err =>
    ⟨"", some (GoError.ofString ("failed to get current directory: " ++ err.errorText)), e, []⟩
  | Except.ok p =>
    match w.analyzeProject p with
    | Except.error err =>
      ⟨"", some (GoError.ofString ("project analysis failed: " ++ err.errorText)), e,
        [Effect.projectAnalysis p]⟩
    | Except.ok info =>
      let e1 : ToolExecutor := { e with projectInfo := some info, generator := some info }
      match w.marshalProjectInfo info with
      | Except.error err =>
        ⟨"", some (GoError.ofString ("failed to format analysis result: " ++ err.errorText)),
          e1, [Effect.projectAnalysis p]⟩
      | Except.ok result =>
        ⟨"Project Analysis Results:\n" ++ result, none, e1, [Effect.projectAnalysis p]⟩

/-- ensureProjectInfo embeds the recurring guard `if e.projectInfo ==
nil { if _, err := e.analyzeProject("."); err != nil { return ... } }`:
either the cached info with no new effects, or the info freshly cached
by a successful analysis, or the wrapped failure.  The final fallback
arm is unreachable because a successful `analyzeProject` always caches
the info. -/
def ToolExecutor.ensureProjectInfo (e : ToolExecutor) (w : World) :
    Except ExecOutcome (ProjectInfo × ToolExecutor × List Effect) :=
  match e.projectInfo with
  | some info => Except.ok (info, e, [])
  | none =>
    let r := e.analyzeProject w "."
    match r.err with
    | some err =>
      Except.error ⟨"", some (GoError.ofString
          ("failed to analyze project context: " ++ err.errorText)), r.exec, r.effects⟩
    | none =>
      match r.exec.projectInfo with
      | some info => Except.ok (info, r.exec, r.effects)
      | none =>
        Except.error ⟨"", some (GoError.ofString "failed to analyze project context"),
          r.exec, r.effects⟩

/-- ensureGenerator is the same guard on the generator cache, used by
`generateCode` and `generateWebFile`. -/
def ToolExecutor.ensureGenerator (e : ToolExecutor) (w : World) :
    Except ExecOutcome (ProjectInfo × ToolExecutor × List Effect) :=
  match e.generator with
  | some info => Except.ok (info, e, [])
  | none =>
    let r := e.analyzeProject w "."
    match r.err with
    | some err =>
      Except.error ⟨"", some (GoError.ofString
          ("failed to analyze project context: " ++ err.errorText)), r.exec, r.effects⟩
    | none =>
      match r.exec.generator with
      | some info => Except.ok (info, r.exec, r.effects)
      | none =>
        Except.error ⟨"", some (GoError.ofString "failed to analyze project context"),
          r.exec, r.effects⟩

/-- generateCodeWith is the body of `generateCode` after the required
arguments are checked and the generator is available: the switch on the
lower-cased code type, the optional json spec decoding, the generator
invocation and the formatted result. -/
def ToolExecutor.generateCodeWith (e : ToolExecutor) (w : World) (fc : FunctionCall)
    (codeType nm description : String) (info : ProjectInfo) (effPre : List Effect) :
    ExecOutcome :=
  let finish (code : Except GoError String) (filename : String) : ExecOutcome :=
    match code with
    | Except.error err =>
      ⟨"", some (GoError.ofString ("code generation failed: " ++ err.errorText)), e,
        effPre ++ [Effect.codeGen codeType nm]⟩
    | Except.ok c =>
      ⟨"Generated " ++ codeType ++ " code for \x27" ++ nm ++ "\x27:\n\nSuggested filename: "
          ++ filename ++ "\n\nCode:\n```\n" ++ c ++ "\n```", none, e,
        effPre ++ [Effect.codeGen codeType nm]⟩
  match codeType.toLower with
  | "function" =>
    let spec := argStringD fc.args "spec"
    let pr : List String × List String :=
      if spec ≠ "" then (w.parseFuncSpec spec).getD ([], []) else ([], [])
    finish (w.generateFunction info nm description pr.1 pr.2)
      (w.suggestedFilename info "function" nm)
  | "class" | "struct" =>
    let spec := argStringD fc.args "spec"
    let fields : List AgentField :=
      if spec ≠ "" then (w.parseClassSpec spec).getD [] else []
    finish (w.generateClass info nm description fields)
      (w.suggestedFilename info "class" nm)
  | "test" =>
    finish (w.generateTest info nm "unit") (w.suggestedTestFilename info nm)
  | "config" =>
    let spec := argStringD fc.args "spec"
    let options : List (String × GoValue) :=
      if spec ≠ "" then (w.parseOptions spec).getD [] else []
    finish (w.generateConfigFile info nm options) nm
  | _ =>
    ⟨"", some (GoError.ofString ("unsupported code type: " ++ codeType)), e, effPre⟩

/-- generateCode embeds the `generateCode` method: presence and type
check of the three required arguments first, then the
generator-availability guard, then the code-type switch. -/
def ToolExecutor.generateCode (e : ToolExecutor) (w : World) (fc : FunctionCall) : ExecOutcome :=
  match argString fc.args "type", argString fc.args "name", argString fc.args "description" with
  | some codeType, some nm, some description =>
    match e.ensureGenerator w with
    | Except.error out => out
    | Except.ok (info, e1, eff) =>
      e1.generateCodeWith w fc codeType nm description info eff
  | _, _, _ =>
    ⟨"", some (GoError.ofString "missing required arguments for code generation"), e, []⟩

/-- installDependencies embeds the `installDependencies` method: ensure
project info, read the optional packages argument tolerantly, map the
package manager to a command line, and delegate to the command runner. -/
def ToolExecutor.installDependencies (e : ToolExecutor) (w : World) (fc : FunctionCall) :
    ExecOutcome :=
  match e.ensureProjectInfo w with
  | Except.error out => out
  | Except.ok (info, e1, eff) =>
    let packages := argStringD fc.args "packages"
    let command? : Except GoError String :=
      match info.packageManager with
      | "npm" => Except.ok (if packages ≠ "" then "npm install " ++ packages else "npm install")
      | "yarn" => Except.ok (if packages ≠ "" then "yarn add " ++ packages else "yarn install")
      | "pnpm" => Except.ok (if packages ≠ "" then "pnpm add " ++ packages else "pnpm install")
      | "go" => Except.ok (if packages ≠ "" then "go get " ++ packages else "go mod tidy")
      | "pip" =>
        Except.ok (if packages ≠ "" then "pip install " ++ packages
          else "pip install -r requirements.txt")
      | "cargo" =>
        if packages ≠ "" then
          Except.error (GoError.ofString
            "cargo doesn\x27t support installing individual packages via command line")
        else Except.ok "cargo build"
      | pm => Except.error (GoError.ofString ("unknown package manager: " ++ pm))
    match command? with
    | Except.error err => ⟨"", some err, e1, eff⟩
    | Except.ok command =>
      let res := ExecuteCommand w command e1.config.allowedCommands
      ⟨res.1.1, res.1.2, e1, eff ++ res.2⟩

/-- runTests embeds the `runTests` method. -/
def ToolExecutor.runTests (e : ToolExecutor) (w : World) (fc : FunctionCall) : ExecOutcome :=
  match e.ensureProjectInfo w with
  | Except.error out => out
  | Except.ok (info, e1, eff) =>
    let pat := argStringD fc.args "pattern"
    let command? : Except GoError String :=
      match info.language with
      | "Go" => Except.ok (if pat ≠ "" then "go test " ++ pat else "go test ./...")
      | "JavaScript" | "TypeScript" =>
        if info.testFramework = "Jest" then
          Except.ok (if pat ≠ "" then info.packageManager ++ " test " ++ pat
            else info.packageManager ++ " test")
        else Except.ok (info.packageManager ++ " test")
      | "Python" =>
        if info.testFramework = "pytest" then
          Except.ok (if pat ≠ "" then "pytest " ++ pat else "pytest")
        else Except.ok "python -m unittest discover"
      | "Rust" => Except.ok (if pat ≠ "" then "cargo test " ++ pat else "cargo test")
      | lang => Except.error (GoError.ofString ("testing not supported for language: " ++ lang))
    match command? with
    | Except.error err => ⟨"", some err, e1, eff⟩
    | Except.ok command =>
      let res := ExecuteCommand w command e1.config.allowedCommands
      ⟨res.1.1, res.1.2, e1, eff ++ res.2⟩

/-- buildProject embeds the `buildProject` method. -/
def ToolExecutor.buildProject (e : ToolExecutor) (w : World) (fc : FunctionCall) : ExecOutcome :=
  match e.ensureProjectInfo w with
  | Except.error out => out
  | Except.ok (info, e1, eff) =>
    let target := argStringD fc.args "target"
    let command? : Except GoError String :=
      match info.language with
      | "Go" => Except.ok (if target ≠ "" then "go build -o " ++ target ++ " ." else "go build .")
      | "JavaScript" | "TypeScript" =>
        match info.scripts.find? (fun kv => kv.1 == "build") with
        | some _ => Except.ok (info.packageManager ++ " run build")
        | none => Except.error (GoError.ofString "no build script found in package.json")
      | "Python" =>
        Except.ok (if info.buildTool = "poetry" then "poetry build" else "python setup.py build")
      | "Rust" =>
        Except.ok (if target ≠ "" then "cargo build --bin " ++ target else "cargo build")
      | lang => Except.error (GoError.ofString ("building not supported for language: " ++ lang))
    match command? with
    | Except.error err => ⟨"", some err, e1, eff⟩
    | Except.ok command =>
      let res := ExecuteCommand w command e1.config.allowedCommands
      ⟨res.1.1, res.1.2, e1, eff ++ res.2⟩

/-- generateWebFile embeds the `generateWebFile` method: presence and
type check of the two required arguments first, then the generator
guard, the tolerant options decoding, the default `appName` and
`uniqueId` entries, the content generation and the file write. -/
def ToolExecutor.generateWebFile (e : ToolExecutor) (w : World) (fc : FunctionCall) :
    ExecOutcome :=
  match argString fc.args "file_type", argString fc.args "filename" with
  | some fileType, some filename =>
    match e.ensureGenerator w with
    | Except.error out => out
    | Except.ok (info, e1, eff) =>
      let optionsStr := argStringD fc.args "options"
      let options0 : List (String × GoValue) :=
        if optionsStr ≠ "" then (w.parseOptions optionsStr).getD [] else []
      let options1 :=
        if isNilArg options0 "appName" then setArg options0 "appName" (GoValue.str "Console Buddy")
        else options0
      let options2 :=
        if isNilArg options1 "uniqueId" then setArg options1 "uniqueId" (GoValue.str "cb-app")
        else options1
      match w.generateWebContent info fileType options2 with
      | Except.error err =>
        ⟨"", some (GoError.ofString ("web file generation failed: " ++ err.errorText)), e1,
          eff ++ [Effect.codeGen "web" filename]⟩
      | Except.ok content =>
        match w.writeFile filename content with
        | some err =>
          ⟨"", some (GoError.ofString
              ("failed to write file " ++ filename ++ ": " ++ err.errorText)), e1,
            eff ++ [Effect.codeGen "web" filename, Effect.fileWrite filename content]⟩
        | none =>
          ⟨"Generated unique " ++ fileType ++ " file \x27" ++ filename ++
              "\x27 successfully using Console Buddy templates to avoid recitation issues.",
            none, e1, eff ++ [Effect.codeGen "web" filename, Effect.fileWrite filename content]⟩
  | _, _ =>
    ⟨"", some (GoError.ofString "missing required arguments for web file generation"), e, []⟩

/-- Execute embeds the dispatcher `ToolExecutor.Execute` of tools.go:
the switch over the static tool names, each case checking its required
string arguments before performing any collaborator call, and the
default case rejecting unknown tool names with nothing executed. -/
def ToolExecutor.Execute (e : ToolExecutor) (w : World) (fc : FunctionCall) : ExecOutcome :=
  match fc.name with
  | "execute_shell_command" =>
    match argString fc.args "command" with
    | some command =>
      let res := ExecuteCommand w command e.config.allowedCommands
      ⟨res.1.1, res.1.2, e, res.2⟩
    | none => ⟨"", some (GoError.ofString "invalid or missing \x27command\x27 argument"), e, []⟩
  | "create_file" | "update_file" =>
    match argString fc.args "path", argString fc.args "content" with
    | some path, some content =>
      match w.writeFile path content with
      | some err => ⟨"", some err, e, [Effect.fileWrite path content]⟩
      | none =>
        ⟨"File \x27" ++ path ++ "\x27 was " ++ fc.name ++ "d successfully.", none, e,
          [Effect.fileWrite path content]⟩
    | _, _ => ⟨"", some (GoError.ofString ("invalid arguments for " ++ fc.name)), e, []⟩
  | "read_file" =>
    match argString fc.args "path" with
    | some path =>
      match w.readFile path with
      | Except.error err => ⟨"", some err, e, [Effect.fileRead path]⟩
      | Except.ok content => ⟨content, none, e, [Effect.fileRead path]⟩
    | none => ⟨"", some (GoError.ofString "invalid or missing \x27path\x27 argument"), e, []⟩
  | "delete_file" =>
    match argString fc.args "path" with
    | some path =>
      match w.remove path with
      | some err => ⟨"", some err, e, [Effect.fileRemove path]⟩
      | none => ⟨"File deleted successfully.", none, e, [Effect.fileRemove path]⟩
    | none => ⟨"", some (GoError.ofString "invalid or missing \x27path\x27 argument"), e, []⟩
  | "list_files" =>
    match argString fc.args "path" with
    | some path =>
      match w.readDir path with
      | Except.error err => ⟨"", some err, e, [Effect.dirList path]⟩
      | Except.ok names => ⟨String.intercalate "\n" names, none, e, [Effect.dirList path]⟩
    | none => ⟨"", some (GoError.ofString "invalid or missing \x27path\x27 argument"), e, []⟩
  | "analyze_project" =>
    match argString fc.args "path" with
    | some path => e.analyzeProject w path
    | none => ⟨"", some (GoError.ofString "invalid or missing \x27path\x27 argument"), e, []⟩
  | "generate_code" => e.generateCode w fc
  | "install_dependencies" => e.installDependencies w fc
  | "run_tests" => e.runTests w fc
  | "build_project" => e.buildProject w fc
  | "generate_web_file" => e.generateWebFile w fc
  | _ => ⟨"", some (GoError.ofString ("unknown function call: " ++ fc.name)), e, []⟩

/-- FunctionDeclaration carries, from `defineTools`, the declared tool
name and its Required argument list (the prose descriptions and the
schema types — string for every declared argument — are omitted). -/
structure FunctionDeclaration where
  name : String
  required : List String
deriving DecidableEq

/-- defineTools lists the static registry of `defineTools` in tools.go:
the twelve declared tools with their Required argument names. -/
def defineTools : List FunctionDeclaration :=
  [⟨"execute_shell_command", ["command"]⟩,
   ⟨"create_file", ["path", "content"]⟩,
   ⟨"read_file", ["path"]⟩,
   ⟨"update_file", ["path", "content"]⟩,
   ⟨"delete_file", ["path"]⟩,
   ⟨"list_files", ["path"]⟩,
   ⟨"analyze_project", ["path"]⟩,
   ⟨"generate_code", ["type", "name", "description"]⟩,
   ⟨"install_dependencies", []⟩,
   ⟨"run_tests", []⟩,
   ⟨"build_project", []⟩,
   ⟨"generate_web_file", ["file_type", "filename"]⟩]

/-- registryNames is the set of tool names in the static registry; it
coincides with the names handled by the switch in `Execute`. -/
def registryNames : List String := defineTools.map (fun d => d.name)

/-- requiredArgsOf gives the declared Required argument names of a
registered tool (empty for unknown names and for the three tools that
declare no required arguments). -/
def requiredArgsOf (toolName : String) : List String :=
  ((defineTools.find? (fun d => d.name == toolName)).map (fun d => d.required)).getD []

/-- EngineInv is the loop invariant of the engine state: the builder
holds the concatenation of every processed text fragment; a response has
been recorded exactly when some text fragment was processed; no two
consecutive emitted "Response" events carry equal text; `lastTextChunk`
is the text of the most recently emitted "Response" event (initially the
empty string); and the sent FunctionResponse payloads correspond
one-to-one, in order, to the processed function-call parts. -/
def EngineInv (st : EngineState) : Prop :=
  st.responseBuilder = concatAll (textsOf st.processed) ∧
  (st.hasResponded = true ↔ textsOf st.processed ≠ []) ∧
  List.Chain' (fun a b => a ≠ b) (responseTexts st.events) ∧
  st.lastTextChunk = ((responseTexts st.events).getLast?).getD "" ∧
  st.sent.map (fun fr => fr.name) = callNames st.processed

/-- respOf wraps a part list into a single-candidate stream item. -/
def respOf (ps : List GPart) : NextResult :=
  NextResult.next (some ⟨[⟨some ⟨ps, "model"⟩⟩]⟩)

/-- streamDeadlineAfterText: the stream yields one text fragment and
then the read fails with the expired-deadline error. -/
def streamDeadlineAfterText : Nat → NextResult
  | 0 => respOf [GPart.text "partial"]
  | 1 => NextResult.failure GoError.deadlineExceeded
  | _ => NextResult.done

/-- streamFailAfterText: one text fragment, then a transport failure. -/
def streamFailAfterText : Nat → NextResult
  | 0 => respOf [GPart.text "hello"]
  | 1 => NextResult.failure (GoError.ofString "boom")
  | _ => NextResult.done

/-- streamOneToolCall: a single tool-call request, then a clean end. -/
def streamOneToolCall : Nat → NextResult
  | 0 => respOf [GPart.functionCall ⟨"delete_file", [("path", GoValue.str "x.txt")]⟩]
  | _ => NextResult.done

/-- streamToolCallThenFail: a tool-call request, then a transport
failure on the re-opened stream. -/
def streamToolCallThenFail : Nat → NextResult
  | 0 => respOf [GPart.functionCall ⟨"read_file", [("path", GoValue.str "a.txt")]⟩]
  | 1 => NextResult.failure (GoError.ofString "net down")
  | _ => NextResult.done

/-- streamToolOnly: a tool-call request and then a clean end with no
text ever produced. -/
def streamToolOnly : Nat → NextResult
  | 0 => respOf [GPart.functionCall ⟨"list_files", [("path", GoValue.str ".")]⟩]
  | _ => NextResult.done

/-- streamDupText: three text fragments of which the second repeats the
first, then a clean end. -/
def streamDupText : Nat → NextResult
  | 0 => respOf [GPart.text "a", GPart.text "a", GPart.text "b"]
  | _ => NextResult.done

/-- trivialExec is a tool executor oracle that always succeeds with
empty output. -/
def trivialExec : Unit → FunctionCall → (String × Option GoError) × Unit :=
  fun u _ => (("", none), u)

/-- listingExec is a tool executor oracle returning a fixed listing. -/
def listingExec : Unit → FunctionCall → (String × Option GoError) × Unit :=
  fun u _ => (("a.txt\nb.txt", none), u)

/-- failingExecA is a tool executor oracle that always fails with one
fixed error and empty output. -/
def failingExecA : Unit → FunctionCall → (String × Option GoError) × Unit :=
  fun u _ => (("", some (GoError.ofString "disk failure")), u)

/-- failingExecB is like failingExecA with a different error message. -/
def failingExecB : Unit → FunctionCall → (String × Option GoError) × Unit :=
  fun u _ => (("", some (GoError.ofString "permission denied")), u)

/-- tuiLoadingModel is a concrete UI model mid-turn (loading). -/
def tuiLoadingModel : TuiModel :=
  ⟨"second question", true, ["first question", "first answer"], "partial reply", "partial reply"⟩

/-- tuiIdleModel is a concrete idle UI model with text in the input. -/
def tuiIdleModel : TuiModel := ⟨"hi", false, [], "old content", "old content"⟩

/-- emptyProjectInfo is a concrete analyzer result. -/
def emptyProjectInfo : ProjectInfo := ⟨"Unknown", "", "", "", "", []⟩

/-- idleWorld is a concrete collaborator bundle whose oracles all
succeed with inert values; it is used only to instantiate theorems at
concrete inputs. -/
def idleWorld : World :=
  ⟨fun _ => ("", none),
   fun _ _ => none,
   fun _ => Except.ok "",
   fun _ => none,
   fun _ => Except.ok [],
   Except.ok "/work",
   fun _ => Except.ok emptyProjectInfo,
   fun _ => Except.ok "",
   fun _ => none,
   fun _ => none,
   fun _ => none,
   fun _ _ _ _ _ => Except.ok "",
   fun _ _ _ _ => Except.ok "",
   fun _ _ _ => Except.ok "",
   fun _ _ _ => Except.ok "",
   fun _ _ _ => Except.ok "",
   fun _ _ _ => "",
   fun _ _ => ""⟩

/-- freshExecutor is the executor state right after `NewToolExecutor`:
no cached project info and no generator. -/
def freshExecutor : ToolExecutor := ⟨⟨["go", "git"]⟩, none, none⟩

/-! Helper lemmas about the engine loop. -/

theorem processParts_pulls {σ : Type} (exec : σ → FunctionCall → (String × Option GoError) × σ) :
    ∀ (ps : List GPart) (ex : σ) (st : EngineState),
      (processParts exec ps ex st).1.pulls = st.pulls := by
  intro ps
  induction ps with
  | nil => intro ex st; rfl
  | cons p rest ih =>
    intro ex st
    cases p with
    | text s => simp only [processParts]; rw [ih]
    | functionCall fc => simp only [processParts]; rw [ih]

theorem consumeResponse_pulls {σ : Type} (exec : σ → FunctionCall → (String × Option GoError) × σ)
    (resp : Option GenResponse) (ex : σ) (st : EngineState) :
    (consumeResponse exec resp ex st).1.pulls = st.pulls := by
  cases resp with
  | none => rfl
  | some r =>
    cases hr : r.candidates with
    | nil => simp [consumeResponse, hr]
    | cons c rest =>
      cases hc : c.content with
      | none => simp [consumeResponse, hr, hc]
      | some content => simp [consumeResponse, hr, hc, processParts_pulls]

theorem engineLoop_pulls_le {σ : Type} (stream : Nat → NextResult)
    (exec : σ → FunctionCall → (String × Option GoError) × σ) :
    ∀ (fuel : Nat) (ex : σ) (st : EngineState),
      (engineLoop stream exec fuel ex st).st.pulls ≤ st.pulls + fuel := by
  intro fuel
  induction fuel with
  | zero => intro ex st; simp [engineLoop]
  | succ n ih =>
    intro ex st
    simp only [engineLoop]
    cases stream st.pulls with
    | done => simp
    | failure e => simp
    | next resp =>
      have hp := consumeResponse_pulls exec resp ex { st with pulls := st.pulls + 1 }
      have hrec := ih (consumeResponse exec resp ex { st with pulls := st.pulls + 1 }).2
        (consumeResponse exec resp ex { st with pulls := st.pulls + 1 }).1
      rw [hp] at hrec
      have ha : ({ st with pulls := st.pulls + 1 } : EngineState).pulls = st.pulls + 1 := rfl
      rw [ha] at hrec
      simp only []
      omega

theorem engineLoop_err_src {σ : Type} (stream : Nat → NextResult)
    (exec : σ → FunctionCall → (String × Option GoError) × σ) :
    ∀ (fuel : Nat) (ex : σ) (st : EngineState) (e : GoError),
      (engineLoop stream exec fuel ex st).err = some e →
      ∃ e0, e = GoError.streamError e0 ∧
        ∃ k, st.pulls ≤ k ∧ k < (engineLoop stream exec fuel ex st).st.pulls ∧
          stream k = NextResult.failure e0 := by
  intro fuel
  induction fuel with
  | zero => intro ex st e h; simp [engineLoop] at h
  | succ n ih =>
    intro ex st e h
    simp only [engineLoop] at h ⊢
    cases hs : stream st.pulls with
    | done => rw [hs] at h; simp at h
    | failure e0 =>
      rw [hs] at h
      simp at h
      exact ⟨e0, h.symm, st.pulls, le_refl _, Nat.lt_succ_self _, hs⟩
    | next resp =>
      rw [hs] at h
      have h2 : (engineLoop stream exec n
          (consumeResponse exec resp ex { st with pulls := st.pulls + 1 }).2
          (consumeResponse exec resp ex { st with pulls := st.pulls + 1 }).1).err = some e := h
      obtain ⟨e0, he, k, hk1, hk2, hk3⟩ := ih _ _ e h2
      have hp : (consumeResponse exec resp ex { st with pulls := st.pulls + 1 }).1.pulls
          = st.pulls + 1 := consumeResponse_pulls exec resp ex _
      rw [hp] at hk1
      exact ⟨e0, he, k, by omega, hk2, hk3⟩

theorem engineLoop_failure_hit {σ : Type} (stream : Nat → NextResult)
    (exec : σ → FunctionCall → (String × Option GoError) × σ) :
    ∀ (fuel : Nat) (ex : σ) (st : EngineState) (k : Nat) (e : GoError),
      st.pulls ≤ k → k < (engineLoop stream exec fuel ex st).st.pulls →
      stream k = NextResult.failure e →
      (engineLoop stream exec fuel ex st).err = some (GoError.streamError e) := by
  intro fuel
  induction fuel with
  | zero =>
    intro ex st k e hk1 hk2 _
    simp [engineLoop] at hk2
    omega
  | succ n ih =>
    intro ex st k e hk1 hk2 hf
    simp only [engineLoop] at hk2 ⊢
    cases hs : stream st.pulls with
    | done =>
      rw [hs] at hk2
      have hk2a : k < st.pulls + 1 := hk2
      have hkp : k = st.pulls := by omega
      rw [hkp, hs] at hf
      exact NextResult.noConfusion hf
    | failure e0 =>
      rw [hs] at hk2
      have hk2a : k < st.pulls + 1 := hk2
      have hkp : k = st.pulls := by omega
      rw [hkp, hs] at hf
      injection hf with he
      rw [he]
    | next resp =>
      rw [hs] at hk2
      have hk2a : k < (engineLoop stream exec n
          (consumeResponse exec resp ex { st with pulls := st.pulls + 1 }).2
          (consumeResponse exec resp ex { st with pulls := st.pulls + 1 }).1).st.pulls := hk2
      have hne : k ≠ st.pulls := by
        intro hkp
        rw [hkp, hs] at hf
        exact NextResult.noConfusion hf
      have hp : (consumeResponse exec resp ex { st with pulls := st.pulls + 1 }).1.pulls
          = st.pulls + 1 := consumeResponse_pulls exec resp ex _
      have hk1a : (consumeResponse exec resp ex
          { st with pulls := st.pulls + 1 }).1.pulls ≤ k := by rw [hp]; omega
      exact ih _ _ k e hk1a hk2a hf

theorem concatAll_append (l1 l2 : List String) :
    concatAll (l1 ++ l2) = concatAll l1 ++ concatAll l2 := by
  induction l1 with
  | nil => simp [concatAll]
  | cons s rest ih => simp [concatAll, ih, String.append_assoc]

theorem textsOf_append (l1 l2 : List GPart) :
    textsOf (l1 ++ l2) = textsOf l1 ++ textsOf l2 := by
  simp [textsOf]

theorem callNames_append (l1 l2 : List GPart) :
    callNames (l1 ++ l2) = callNames l1 ++ callNames l2 := by
  simp [callNames]

theorem responseTexts_append (l1 l2 : List (String × String)) :
    responseTexts (l1 ++ l2) = responseTexts l1 ++ responseTexts l2 := by
  simp [responseTexts]

theorem processParts_inv {σ : Type} (exec : σ → FunctionCall → (String × Option GoError) × σ) :
    ∀ (ps : List GPart) (ex : σ) (st : EngineState),
      EngineInv st → EngineInv (processParts exec ps ex st).1 := by
  intro ps
  induction ps with
  | nil => intro ex st h; exact h
  | cons p rest ih =>
    intro ex st h
    obtain ⟨h1, h2, h3, h4, h5⟩ := h
    cases p with
    | text s =>
      simp only [processParts]
      apply ih
      have c1 : st.responseBuilder ++ s
          = concatAll (textsOf (st.processed ++ [GPart.text s])) := by
        rw [textsOf_append, concatAll_append, h1]
        simp [textsOf, concatAll]
      have c2 : textsOf (st.processed ++ [GPart.text s]) ≠ [] := by
        rw [textsOf_append]
        simp [textsOf]
      have c5 : st.sent.map (fun fr => fr.name)
          = callNames (st.processed ++ [GPart.text s]) := by
        rw [callNames_append]
        simp [callNames, h5]
      by_cases hne : s = st.lastTextChunk
      · have hb : (s != st.lastTextChunk) = false := by simp [hne]
        simp only [hb, Bool.false_eq_true, if_false]
        exact ⟨c1, by simp [c2], h3, h4, c5⟩
      · have hb : (s != st.lastTextChunk) = true := by simp [hne]
        simp only [hb, if_true]
        refine ⟨c1, by simp [c2], ?_, ?_, c5⟩
        · show List.Chain' (fun a b => a ≠ b)
            (responseTexts (st.events ++ [("Response", s)]))
          rw [responseTexts_append]
          rw [List.chain'_append]
          refine ⟨h3, List.chain'_singleton s, ?_⟩
          intro x hx y hy
          have hxl : (responseTexts st.events).getLast? = some x := hx
          have hys : s = y := by
            simpa [responseTexts] using hy
          rw [← hys]
          rw [hxl] at h4
          simp at h4
          rw [← h4]
          exact fun hcontra => hne hcontra.symm
        · show s = ((responseTexts (st.events ++ [("Response", s)])).getLast?).getD ""
          rw [responseTexts_append]
          have : responseTexts [(("Response" : String), s)] = [s] := rfl
          rw [this, List.getLast?_concat]
          rfl
    | functionCall fc =>
      simp only [processParts]
      apply ih
      have hTexts : textsOf (st.processed ++ [GPart.functionCall fc])
          = textsOf st.processed := by
        rw [textsOf_append]
        simp [textsOf]
      have hCalls : callNames (st.processed ++ [GPart.functionCall fc])
          = callNames st.processed ++ [fc.name] := by
        rw [callNames_append]
        simp [callNames]
      have hEv : responseTexts (st.events ++
          [("Tool Call", "\nExecuting: " ++ fc.name ++ " with args: " ++ argsJson fc.args)] ++
          (match (exec ex fc).1.2 with
            | some e => [("Tool Error", GoError.errorText e)]
            | none => []) ++
          [("Tool Output", (exec ex fc).1.1)]) = responseTexts st.events := by
        rw [responseTexts_append, responseTexts_append, responseTexts_append]
        cases (exec ex fc).1.2 with
        | none => simp [responseTexts]
        | some e => simp [responseTexts]
      refine ⟨?_, ?_, ?_, ?_, ?_⟩
      · show st.responseBuilder = concatAll (textsOf (st.processed ++ [GPart.functionCall fc]))
        rw [hTexts]
        exact h1
      · show st.hasResponded = true ↔ textsOf (st.processed ++ [GPart.functionCall fc]) ≠ []
        rw [hTexts]
        exact h2
      · exact hEv ▸ h3
      · show st.lastTextChunk = _
        rw [hEv]
        exact h4
      · show (st.sent ++ [(⟨fc.name, (exec ex fc).1.1⟩ : FunctionResponse)]).map (fun fr => fr.name)
            = callNames (st.processed ++ [GPart.functionCall fc])
        rw [hCalls, List.map_append, h5]
        rfl

theorem consumeResponse_inv {σ : Type} (exec : σ → FunctionCall → (String × Option GoError) × σ)
    (resp : Option GenResponse) (ex : σ) (st : EngineState) (h : EngineInv st) :
    EngineInv (consumeResponse exec resp ex st).1 := by
  cases resp with
  | none => exact h
  | some r =>
    cases hr : r.candidates with
    | nil => simpa [consumeResponse, hr] using h
    | cons c rest =>
      cases hc : c.content with
      | none => simpa [consumeResponse, hr, hc] using h
      | some content =>
        have hpp := processParts_inv exec content.parts ex st h
        simpa [consumeResponse, hr, hc] using hpp

theorem engineLoop_inv {σ : Type} (stream : Nat → NextResult)
    (exec : σ → FunctionCall → (String × Option GoError) × σ) :
    ∀ (fuel : Nat) (ex : σ) (st : EngineState),
      EngineInv st → EngineInv (engineLoop stream exec fuel ex st).st := by
  intro fuel
  induction fuel with
  | zero => intro ex st h; exact h
  | succ n ih =>
    intro ex st h
    have h1 : EngineInv ({ st with pulls := st.pulls + 1 } : EngineState) := h
    simp only [engineLoop]
    cases stream st.pulls with
    | done => exact h1
    | failure e => exact h1
    | next resp => exact ih _ _ (consumeResponse_inv exec resp ex _ h1)

theorem initialEngineState_inv : EngineInv initialEngineState := by
  refine ⟨rfl, by simp [textsOf, initialEngineState], ?_, rfl, rfl⟩
  show List.Chain' (fun a b => a ≠ b) (responseTexts [("Thinking...", "")])
  simp [responseTexts]

theorem cc_obs {σ : Type} (history : List String) (input : String)
    (stream : Nat → NextResult) (exec : σ → FunctionCall → (String × Option GoError) × σ)
    (ex : σ) :
    (ContinueConversation history input stream exec ex).events
        = (engineLoop stream exec maxLoopIterations ex initialEngineState).st.events ∧
    (ContinueConversation history input stream exec ex).sent
        = (engineLoop stream exec maxLoopIterations ex initialEngineState).st.sent ∧
    (ContinueConversation history input stream exec ex).pulls
        = (engineLoop stream exec maxLoopIterations ex initialEngineState).st.pulls ∧
    (ContinueConversation history input stream exec ex).processed
        = (engineLoop stream exec maxLoopIterations ex initialEngineState).st.processed ∧
    (ContinueConversation history input stream exec ex).err
        = (engineLoop stream exec maxLoopIterations ex initialEngineState).err := by
  cases hE : (engineLoop stream exec maxLoopIterations ex initialEngineState).err with
  | none =>
    by_cases hH : (engineLoop stream exec maxLoopIterations ex initialEngineState).st.hasResponded
      <;> simp [ContinueConversation, hE, hH]
  | some e => simp [ContinueConversation, hE]

theorem cc_reply_spec {σ : Type} (history : List String) (input : String)
    (stream : Nat → NextResult) (exec : σ → FunctionCall → (String × Option GoError) × σ)
    (ex : σ) :
    (ContinueConversation history input stream exec ex).err = none →
    (ContinueConversation history input stream exec ex).reply =
      (if textsOf (ContinueConversation history input stream exec ex).processed = []
       then fallbackReply
       else concatAll (textsOf (ContinueConversation history input stream exec ex).processed)) := by
  intro hE
  obtain ⟨_, _, _, hproc, herr⟩ := cc_obs history input stream exec ex
  obtain ⟨h1, h2, _, _, _⟩ :=
    engineLoop_inv stream exec maxLoopIterations ex initialEngineState initialEngineState_inv
  rw [hE] at herr
  rw [hproc]
  by_cases hH : (engineLoop stream exec maxLoopIterations ex initialEngineState).st.hasResponded
  · have hne : textsOf (engineLoop stream exec maxLoopIterations ex
        initialEngineState).st.processed ≠ [] := h2.mp hH
    rw [if_neg hne]
    simp [ContinueConversation, ← herr, hH]
    exact h1
  · have hBF : (engineLoop stream exec maxLoopIterations ex
        initialEngineState).st.hasResponded = false := by
      revert hH
      cases (engineLoop stream exec maxLoopIterations ex initialEngineState).st.hasResponded
        <;> simp
    have heq : textsOf (engineLoop stream exec maxLoopIterations ex
        initialEngineState).st.processed = [] := by
      by_contra hcon
      have := h2.mpr hcon
      rw [hBF] at this
      cases this
    rw [if_pos heq]
    simp [ContinueConversation, ← herr, hBF]

theorem cc_err_discards {σ : Type} (history : List String) (input : String)
    (stream : Nat → NextResult) (exec : σ → FunctionCall → (String × Option GoError) × σ)
    (ex : σ) (e : GoError)
    (hE : (ContinueConversation history input stream exec ex).err = some e) :
    (ContinueConversation history input stream exec ex).reply = "" := by
  obtain ⟨_, _, _, _, herr⟩ := cc_obs history input stream exec ex
  rw [hE] at herr
  simp [ContinueConversation, ← herr]

/-- Claim C3: for every input, history and every behaviour of the model
stream — including one that yields a new tool-call request on every pull
— the engine performs at most the fixed maximum number (15) of
stream-advance operations (calls of `iter.Next()`) before returning. -/
theorem engine_pull_bound {σ : Type} (history : List String) (input : String)
    (stream : Nat → NextResult) (exec : σ → FunctionCall → (String × Option GoError) × σ)
    (ex : σ) :
    (ContinueConversation history input stream exec ex).pulls ≤ maxLoopIterations ∧
    maxLoopIterations = 15 := by
  obtain ⟨_, _, hpulls, _, _⟩ := cc_obs history input stream exec ex
  refine ⟨?_, rfl⟩
  rw [hpulls]
  have hb : (engineLoop stream exec maxLoopIterations ex initialEngineState).st.pulls
      ≤ 0 + 15 := engineLoop_pulls_le stream exec maxLoopIterations ex initialEngineState
  show (engineLoop stream exec maxLoopIterations ex initialEngineState).st.pulls ≤ 15
  omega

/-- Claim C10: whenever a pull from the model stream returns an error
other than the clean end-of-stream sentinel, the engine returns the
empty string together with that (wrapped) error: text accumulated before
the failure is discarded and never returned to the caller. -/
theorem engine_stream_error_discards_text {σ : Type} (history : List String) (input : String)
    (stream : Nat → NextResult) (exec : σ → FunctionCall → (String × Option GoError) × σ)
    (ex : σ) (e : GoError)
    (hE : (ContinueConversation history input stream exec ex).err = some e) :
    (ContinueConversation history input stream exec ex).reply = "" ∧
    ∃ e0, e = GoError.streamError e0 ∧
      ∃ k, k < (ContinueConversation history input stream exec ex).pulls ∧
        stream k = NextResult.failure e0 := by
  obtain ⟨_, _, hpulls, _, herr⟩ := cc_obs history input stream exec ex
  refine ⟨cc_err_discards history input stream exec ex e hE, ?_⟩
  rw [hE] at herr
  obtain ⟨e0, he, k, _, hk2, hk3⟩ :=
    engineLoop_err_src stream exec maxLoopIterations ex initialEngineState e herr.symm
  exact ⟨e0, he, k, by rw [hpulls]; exact hk2, hk3⟩

theorem engine_stream_error_discards_text_witness :
    (ContinueConversation [] "q" streamFailAfterText trivialExec ()).err
        = some (GoError.streamError (GoError.ofString "boom")) ∧
    ((ContinueConversation [] "q" streamFailAfterText trivialExec ()).reply = "" ∧
      ∃ e0, GoError.streamError (GoError.ofString "boom") = GoError.streamError e0 ∧
        ∃ k, k < (ContinueConversation [] "q" streamFailAfterText trivialExec ()).pulls ∧
          streamFailAfterText k = NextResult.failure e0) :=
  ⟨rfl, engine_stream_error_discards_text [] "q" streamFailAfterText trivialExec ()
      (GoError.streamError (GoError.ofString "boom")) rfl⟩

/-- Claim C1 counterexample: with one text fragment accumulated
("partial") and the next stream read failing with the expired-deadline
error, the engine does not return the accumulated text with no error —
it returns the empty reply together with the wrapped error, exactly as
for any other stream failure. -/
theorem engine_deadline_counterexample :
    (ContinueConversation [] "hi" streamDeadlineAfterText trivialExec ()).err
        = some (GoError.streamError GoError.deadlineExceeded) ∧
    (ContinueConversation [] "hi" streamDeadlineAfterText trivialExec ()).reply = "" ∧
    ¬((ContinueConversation [] "hi" streamDeadlineAfterText trivialExec ()).reply = "partial" ∧
      (ContinueConversation [] "hi" streamDeadlineAfterText trivialExec ()).err = none) := by
  refine ⟨rfl, rfl, ?_⟩
  intro hcon
  have h0 : (ContinueConversation [] "hi" streamDeadlineAfterText trivialExec ()).reply
      = "" := rfl
  rw [h0] at hcon
  exact absurd hcon.1 (by decide)

/-- Claim C1 (amended): a stream read that fails because the turn
deadline expired is handled like every other stream error, not as soft
truncation: the engine aborts the turn, returning the empty reply and
the wrapped deadline error, and the accumulated text is discarded.
(Only the iteration bound produces the soft-truncation behaviour.) -/
theorem engine_deadline_aborts {σ : Type} (history : List String) (input : String)
    (stream : Nat → NextResult) (exec : σ → FunctionCall → (String × Option GoError) × σ)
    (ex : σ) (k : Nat)
    (hk : k < (ContinueConversation history input stream exec ex).pulls)
    (hs : stream k = NextResult.failure GoError.deadlineExceeded) :
    (ContinueConversation history input stream exec ex).reply = "" ∧
    (ContinueConversation history input stream exec ex).err
      = some (GoError.streamError GoError.deadlineExceeded) := by
  obtain ⟨_, _, hpulls, _, herr⟩ := cc_obs history input stream exec ex
  rw [hpulls] at hk
  have h0 : initialEngineState.pulls ≤ k := Nat.zero_le k
  have hhit := engineLoop_failure_hit stream exec maxLoopIterations ex initialEngineState k
    GoError.deadlineExceeded h0 hk hs
  rw [← herr] at hhit
  exact ⟨cc_err_discards history input stream exec ex _ hhit, hhit⟩

theorem engine_deadline_aborts_witness :
    1 < (ContinueConversation [] "hi2" streamDeadlineAfterText trivialExec ()).pulls ∧
    streamDeadlineAfterText 1 = NextResult.failure GoError.deadlineExceeded ∧
    ((ContinueConversation [] "hi2" streamDeadlineAfterText trivialExec ()).reply = "" ∧
      (ContinueConversation [] "hi2" streamDeadlineAfterText trivialExec ()).err
        = some (GoError.streamError GoError.deadlineExceeded)) :=
  ⟨by decide, rfl,
    engine_deadline_aborts [] "hi2" streamDeadlineAfterText trivialExec () 1 (by decide) rfl⟩

/-- Claim C2 counterexample: two runs whose tool handlers fail with
different errors send the identical FunctionResponse payload
`{name := "delete_file", output := ""}` back to the model — the handler
error is not serialized into the tool-response payload, so the model
cannot observe the failure there (the turn itself still completes
without error). -/
theorem engine_payload_no_error_counterexample :
    (ContinueConversation [] "del" streamOneToolCall failingExecA ()).sent
        = [⟨"delete_file", ""⟩] ∧
    (ContinueConversation [] "del" streamOneToolCall failingExecB ()).sent
        = [⟨"delete_file", ""⟩] ∧
    (ContinueConversation [] "del" streamOneToolCall failingExecA ()).err = none ∧
    (failingExecA () ⟨"delete_file", [("path", GoValue.str "x.txt")]⟩).1.2
        ≠ (failingExecB () ⟨"delete_file", [("path", GoValue.str "x.txt")]⟩).1.2 := by
  exact ⟨rfl, rfl, rfl, by decide⟩

/-- Claim C2 (amended): an error returned by the tool handler is not
fatal to the turn — the stream loop continues, every processed tool call
has a FunctionResponse sent back to the model, and the turn can only end
in error because of a stream failure; however the payload sent back
contains only the handler output string, not the error (the error is
reported to the UI as a "Tool Error" event instead). -/
theorem engine_tool_errors_not_fatal {σ : Type} (history : List String) (input : String)
    (stream : Nat → NextResult) (exec : σ → FunctionCall → (String × Option GoError) × σ)
    (ex : σ) :
    (∀ e, (ContinueConversation history input stream exec ex).err = some e →
        ∃ e0, e = GoError.streamError e0 ∧ ∃ k, stream k = NextResult.failure e0) ∧
    (ContinueConversation history input stream exec ex).sent.map (fun fr => fr.name)
        = callNames (ContinueConversation history input stream exec ex).processed := by
  obtain ⟨_, hsent, _, hproc, herr⟩ := cc_obs history input stream exec ex
  constructor
  · intro e hE
    rw [hE] at herr
    obtain ⟨e0, he, k, _, _, hk3⟩ :=
      engineLoop_err_src stream exec maxLoopIterations ex initialEngineState e herr.symm
    exact ⟨e0, he, k, hk3⟩
  · obtain ⟨_, _, _, _, h5⟩ :=
      engineLoop_inv stream exec maxLoopIterations ex initialEngineState initialEngineState_inv
    rw [hsent, hproc]
    exact h5

theorem engine_tool_errors_not_fatal_witness :
    (ContinueConversation [] "w" streamToolCallThenFail failingExecA ()).err
        = some (GoError.streamError (GoError.ofString "net down")) ∧
    (∃ e0, GoError.streamError (GoError.ofString "net down") = GoError.streamError e0 ∧
        ∃ k, streamToolCallThenFail k = NextResult.failure e0) ∧
    (ContinueConversation [] "w" streamToolCallThenFail failingExecA ()).sent.map
        (fun fr => fr.name)
        = callNames (ContinueConversation [] "w" streamToolCallThenFail failingExecA
            ()).processed :=
  ⟨rfl,
    (engine_tool_errors_not_fatal [] "w" streamToolCallThenFail failingExecA ()).1 _ rfl,
    (engine_tool_errors_not_fatal [] "w" streamToolCallThenFail failingExecA ()).2⟩

/-- Claim C7: a run of the engine that exits its stream loop without
ever having produced a text fragment returns the fixed non-empty
fallback string as the reply, with no error. -/
theorem engine_fallback_reply {σ : Type} (history : List String) (input : String)
    (stream : Nat → NextResult) (exec : σ → FunctionCall → (String × Option GoError) × σ)
    (ex : σ)
    (hE : (ContinueConversation history input stream exec ex).err = none)
    (hT : textsOf (ContinueConversation history input stream exec ex).processed = []) :
    (ContinueConversation history input stream exec ex).reply = fallbackReply ∧
    (ContinueConversation history input stream exec ex).reply ≠ "" := by
  have hr := cc_reply_spec history input stream exec ex hE
  rw [if_pos hT] at hr
  refine ⟨hr, ?_⟩
  rw [hr]
  decide

theorem engine_fallback_reply_witness :
    (ContinueConversation [] "ls" streamToolOnly listingExec ()).err = none ∧
    textsOf (ContinueConversation [] "ls" streamToolOnly listingExec ()).processed = [] ∧
    ((ContinueConversation [] "ls" streamToolOnly listingExec ()).reply = fallbackReply ∧
      (ContinueConversation [] "ls" streamToolOnly listingExec ()).reply ≠ "") :=
  ⟨rfl, rfl, engine_fallback_reply [] "ls" streamToolOnly listingExec () rfl rfl⟩

/-- Claim C8: every text fragment pulled in a turn is appended to the
accumulated reply (so, in a run that ends without a stream error and
produced text, the reply is the concatenation of all processed text
fragments, duplicates included), while a "Response" (TextChunk) event is
emitted only for fragments differing from the immediately preceding one:
no two consecutively emitted TextChunk events carry equal text. -/
theorem engine_text_chunk_dedup {σ : Type} (history : List String) (input : String)
    (stream : Nat → NextResult) (exec : σ → FunctionCall → (String × Option GoError) × σ)
    (ex : σ) :
    List.Chain' (fun a b => a ≠ b)
      (responseTexts (ContinueConversation history input stream exec ex).events) ∧
    ((ContinueConversation history input stream exec ex).err = none →
      textsOf (ContinueConversation history input stream exec ex).processed ≠ [] →
      (ContinueConversation history input stream exec ex).reply
        = concatAll (textsOf (ContinueConversation history input stream exec ex).processed)) := by
  obtain ⟨hev, _, _, _, _⟩ := cc_obs history input stream exec ex
  obtain ⟨_, _, h3, _, _⟩ :=
    engineLoop_inv stream exec maxLoopIterations ex initialEngineState initialEngineState_inv
  refine ⟨by rw [hev]; exact h3, ?_⟩
  intro hE hT
  have hr := cc_reply_spec history input stream exec ex hE
  rw [if_neg hT] at hr
  exact hr

theorem engine_text_chunk_dedup_witness :
    responseTexts (ContinueConversation [] "t" streamDupText trivialExec ()).events
        = ["a", "b"] ∧
    List.Chain' (fun a b => a ≠ b)
      (responseTexts (ContinueConversation [] "t" streamDupText trivialExec ()).events) ∧
    (ContinueConversation [] "t" streamDupText trivialExec ()).reply
        = concatAll (textsOf (ContinueConversation [] "t" streamDupText trivialExec
            ()).processed) ∧
    (ContinueConversation [] "t" streamDupText trivialExec ()).reply = "aab" :=
  ⟨rfl, (engine_text_chunk_dedup [] "t" streamDupText trivialExec ()).1,
    (engine_text_chunk_dedup [] "t" streamDupText trivialExec ()).2 rfl (by decide), rfl⟩

theorem buildHistoryAux_spec : ∀ (h : List String),
    (buildHistoryAux h).length = 2 * ((h.length + 1) / 2) ∧
    ∀ i : Nat, 2 * i < h.length →
      (buildHistoryAux h)[2 * i]? = some ⟨[GPart.text (h[2 * i]?.getD "")], "user"⟩ ∧
      (buildHistoryAux h)[2 * i + 1]? = some ⟨[GPart.text (h[2 * i + 1]?.getD "")], "model"⟩
  | [] => by
    refine ⟨by simp [buildHistoryAux], ?_⟩
    intro i hi
    simp at hi
  | [u] => by
    refine ⟨by simp [buildHistoryAux], ?_⟩
    intro i hi
    have hi0 : i = 0 := by simp at hi; omega
    subst hi0
    constructor <;> simp [buildHistoryAux]
  | u :: m :: rest => by
    obtain ⟨ih1, ih2⟩ := buildHistoryAux_spec rest
    constructor
    · show (buildHistoryAux (u :: m :: rest)).length = 2 * (((u :: m :: rest).length + 1) / 2)
      have hlen : (buildHistoryAux (u :: m :: rest)).length
          = 2 + (buildHistoryAux rest).length := by
        simp [buildHistoryAux]
        omega
      rw [hlen, ih1]
      simp
      omega
    · intro i hi
      cases i with
      | zero => constructor <;> simp [buildHistoryAux]
      | succ j =>
        have hj : 2 * j < rest.length := by
          simp at hi
          omega
        obtain ⟨hj1, hj2⟩ := ih2 j hj
        have e1 : 2 * (j + 1) = 2 * j + 1 + 1 := by ring
        have e2 : 2 * (j + 1) + 1 = 2 * j + 1 + 1 + 1 := by ring
        constructor
        · rw [e1]
          have egoal : (buildHistoryAux (u :: m :: rest))[2 * j + 1 + 1]?
              = (buildHistoryAux rest)[2 * j]? := by
            simp [buildHistoryAux]
          have ehist : (u :: m :: rest)[2 * j + 1 + 1]? = rest[2 * j]? := by
            simp
          rw [egoal, ehist]
          exact hj1
        · rw [e2]
          have egoal : (buildHistoryAux (u :: m :: rest))[2 * j + 1 + 1 + 1]?
              = (buildHistoryAux rest)[2 * j + 1]? := by
            simp [buildHistoryAux]
          have ehist : (u :: m :: rest)[2 * j + 1 + 1 + 1]? = rest[2 * j + 1]? := by
            simp
          rw [egoal, ehist]
          exact hj2

/-- Claim C4: for a history of length n the pairing step produces
exactly ceil(n/2) (user, model) pairs — a flat turn list of length
2*ceil(n/2) — pairing entries (2i, 2i+1) as (user, model); when n is
odd the final pair of the last entry index is completed with an empty
model text (the out-of-range lookup defaults to the empty string). -/
theorem buildHistory_pairing (h : List String) :
    (buildHistory h).length = 2 * ((h.length + 1) / 2) ∧
    ∀ i : Nat, 2 * i < h.length →
      (buildHistory h)[2 * i]? = some ⟨[GPart.text (h[2 * i]?.getD "")], "user"⟩ ∧
      (buildHistory h)[2 * i + 1]? = some ⟨[GPart.text (h[2 * i + 1]?.getD "")], "model"⟩ := by
  cases h with
  | nil =>
    refine ⟨rfl, ?_⟩
    intro i hi
    simp at hi
  | cons a t =>
    have hb : buildHistory (a :: t) = buildHistoryAux (a :: t) := by
      simp [buildHistory]
    rw [hb]
    exact buildHistoryAux_spec (a :: t)

theorem buildHistory_pairing_witness :
    (buildHistory ["a", "b", "c"]).length = 2 * ((["a", "b", "c"].length + 1) / 2) ∧
    ((buildHistory ["a", "b", "c"])[2]? = some ⟨[GPart.text "c"], "user"⟩ ∧
      (buildHistory ["a", "b", "c"])[3]? = some ⟨[GPart.text ""], "model"⟩) := by
  obtain ⟨h1, h2⟩ := buildHistory_pairing ["a", "b", "c"]
  refine ⟨h1, ?_⟩
  have hp := h2 1 (by decide)
  simpa using hp

/-- Claim C6: a submit-key (Enter) event received while loading is a
no-op — the model (in particular its history and its accumulated
response text) is returned unchanged and no command is issued, so no
new turn can start while one is in flight. -/
theorem ui_submit_while_loading_noop (m : TuiModel) (h : m.loading = true) :
    m.update TuiMsg.keyEnter = (m, TuiCmd.none) ∧
    (m.update TuiMsg.keyEnter).1.conversationHistory = m.conversationHistory ∧
    (m.update TuiMsg.keyEnter).1.currentResponse = m.currentResponse := by
  have heq : m.update TuiMsg.keyEnter = (m, TuiCmd.none) := by
    simp [TuiModel.update, h]
  exact ⟨heq, by rw [heq], by rw [heq]⟩

theorem ui_submit_while_loading_noop_witness :
    tuiLoadingModel.loading = true ∧
    (tuiLoadingModel.update TuiMsg.keyEnter = (tuiLoadingModel, TuiCmd.none) ∧
      (tuiLoadingModel.update TuiMsg.keyEnter).1.conversationHistory
        = tuiLoadingModel.conversationHistory ∧
      (tuiLoadingModel.update TuiMsg.keyEnter).1.currentResponse
        = tuiLoadingModel.currentResponse) :=
  ⟨rfl, ui_submit_while_loading_noop tuiLoadingModel rfl⟩

/-- Claim C9 counterexample: an Enter in the idle state does not clear
the input box — with input "hi" the text input still holds "hi" after
the submit transition (only the accumulated response text is reset; the
input is cleared later, by the SuccessMsg handler). -/
theorem ui_submit_no_input_clear_counterexample :
    tuiIdleModel.loading = false ∧
    tuiIdleModel.textInput = "hi" ∧
    ((tuiIdleModel.update TuiMsg.keyEnter).1).textInput = "hi" ∧
    ("hi" : String) ≠ "" := by
  exact ⟨rfl, rfl, rfl, by decide⟩

/-- Claim C9 (amended): an Enter in the idle state transitions to
loading, resets the accumulated response text and the last-rendered
marker before any stream event of the new turn is processed, and issues
the command that starts the conversation with the current input — but
the input box is not cleared at submit time; it is cleared only when
the turn completes (on the SuccessMsg handler). -/
theorem ui_submit_resets (m : TuiModel) (h : m.loading = false) :
    m.update TuiMsg.keyEnter =
      ({ m with loading := true, currentResponse := "", lastRendered := "" },
        TuiCmd.emitStartConversation m.textInput) ∧
    ((m.update TuiMsg.keyEnter).1).textInput = m.textInput ∧
    (∀ (m2 : TuiModel) (reply : String),
        ((m2.update (TuiMsg.successMsg reply)).1).textInput = "") := by
  have h1 : m.update TuiMsg.keyEnter =
      ({ m with loading := true, currentResponse := "", lastRendered := "" },
        TuiCmd.emitStartConversation m.textInput) := by
    simp [TuiModel.update, h]
  refine ⟨h1, by rw [h1], ?_⟩
  intro m2 reply
  rfl

theorem ui_submit_resets_witness :
    tuiIdleModel.loading = false ∧
    (tuiIdleModel.update TuiMsg.keyEnter =
        ({ tuiIdleModel with loading := true, currentResponse := "", lastRendered := "" },
          TuiCmd.emitStartConversation tuiIdleModel.textInput) ∧
      ((tuiIdleModel.update TuiMsg.keyEnter).1).textInput = tuiIdleModel.textInput ∧
      (∀ (m2 : TuiModel) (reply : String),
          ((m2.update (TuiMsg.successMsg reply)).1).textInput = "")) :=
  ⟨rfl, ui_submit_resets tuiIdleModel rfl⟩

theorem execute_unknown_name (e : ToolExecutor) (w : World) (fc : FunctionCall)
    (h : fc.name ∉ registryNames) :
    ToolExecutor.Execute e w fc =
      ⟨"", some (GoError.ofString ("unknown function call: " ++ fc.name)), e, []⟩ := by
  obtain ⟨nm, args⟩ := fc
  simp [registryNames, defineTools] at h
  unfold ToolExecutor.Execute
  split <;> simp_all

theorem execute_invalid_args (e : ToolExecutor) (w : World) (fc : FunctionCall)
    (hmem : fc.name ∈ registryNames)
    (hreq : ∃ r ∈ requiredArgsOf fc.name, argString fc.args r = none) :
    (ToolExecutor.Execute e w fc).output = "" ∧
    (ToolExecutor.Execute e w fc).err ≠ none ∧
    (ToolExecutor.Execute e w fc).exec = e ∧
    (ToolExecutor.Execute e w fc).effects = [] := by
  obtain ⟨nm, args⟩ := fc
  simp only [registryNames, defineTools, List.map_cons, List.map_nil, List.mem_cons,
    List.not_mem_nil, or_false] at hmem
  rcases hmem with h|h|h|h|h|h|h|h|h|h|h|h <;> subst h
  · have hr : argString args "command" = none := by
      simpa [requiredArgsOf, defineTools] using hreq
    refine ⟨?_, ?_, ?_, ?_⟩ <;> simp [ToolExecutor.Execute, hr]
  · have hr : argString args "path" = none ∨ argString args "content" = none := by
      simpa [requiredArgsOf, defineTools] using hreq
    rcases hr with hr | hr
    · refine ⟨?_, ?_, ?_, ?_⟩ <;> simp [ToolExecutor.Execute, hr]
    · cases hp : argString args "path" <;>
        refine ⟨?_, ?_, ?_, ?_⟩ <;> simp [ToolExecutor.Execute, hr, hp]
  · have hr : argString args "path" = none := by
      simpa [requiredArgsOf, defineTools] using hreq
    refine ⟨?_, ?_, ?_, ?_⟩ <;> simp [ToolExecutor.Execute, hr]
  · have hr : argString args "path" = none ∨ argString args "content" = none := by
      simpa [requiredArgsOf, defineTools] using hreq
    rcases hr with hr | hr
    · refine ⟨?_, ?_, ?_, ?_⟩ <;> simp [ToolExecutor.Execute, hr]
    · cases hp : argString args "path" <;>
        refine ⟨?_, ?_, ?_, ?_⟩ <;> simp [ToolExecutor.Execute, hr, hp]
  · have hr : argString args "path" = none := by
      simpa [requiredArgsOf, defineTools] using hreq
    refine ⟨?_, ?_, ?_, ?_⟩ <;> simp [ToolExecutor.Execute, hr]
  · have hr : argString args "path" = none := by
      simpa [requiredArgsOf, defineTools] using hreq
    refine ⟨?_, ?_, ?_, ?_⟩ <;> simp [ToolExecutor.Execute, hr]
  · have hr : argString args "path" = none := by
      simpa [requiredArgsOf, defineTools] using hreq
    refine ⟨?_, ?_, ?_, ?_⟩ <;> simp [ToolExecutor.Execute, hr]
  · have hr : argString args "type" = none ∨ argString args "name" = none ∨
        argString args "description" = none := by
      simpa [requiredArgsOf, defineTools] using hreq
    rcases hr with hr | hr | hr
    · refine ⟨?_, ?_, ?_, ?_⟩ <;>
        simp [ToolExecutor.Execute, ToolExecutor.generateCode, hr]
    · cases h1 : argString args "type" <;>
        refine ⟨?_, ?_, ?_, ?_⟩ <;>
          simp [ToolExecutor.Execute, ToolExecutor.generateCode, hr, h1]
    · cases h1 : argString args "type" <;> cases h2 : argString args "name" <;>
        refine ⟨?_, ?_, ?_, ?_⟩ <;>
          simp [ToolExecutor.Execute, ToolExecutor.generateCode, hr, h1, h2]
  · exact absurd hreq (by simp [requiredArgsOf, defineTools])
  · exact absurd hreq (by simp [requiredArgsOf, defineTools])
  · exact absurd hreq (by simp [requiredArgsOf, defineTools])
  · have hr : argString args "file_type" = none ∨ argString args "filename" = none := by
      simpa [requiredArgsOf, defineTools] using hreq
    rcases hr with hr | hr
    · refine ⟨?_, ?_, ?_, ?_⟩ <;>
        simp [ToolExecutor.Execute, ToolExecutor.generateWebFile, hr]
    · cases h1 : argString args "file_type" <;>
        refine ⟨?_, ?_, ?_, ?_⟩ <;>
          simp [ToolExecutor.Execute, ToolExecutor.generateWebFile, hr, h1]

/-- Claim C5: dispatching an unknown tool name returns an error with
nothing executed (no collaborator invoked, no state cached, empty
output), and dispatching a registered tool with a required argument
missing or not of the required string type likewise returns an error
before performing any side effect. -/
theorem dispatcher_guards (e : ToolExecutor) (w : World) (fc : FunctionCall) :
    (fc.name ∉ registryNames → ToolExecutor.Execute e w fc =
        ⟨"", some (GoError.ofString ("unknown function call: " ++ fc.name)), e, []⟩) ∧
    (fc.name ∈ registryNames →
      (∃ r ∈ requiredArgsOf fc.name, argString fc.args r = none) →
      (ToolExecutor.Execute e w fc).output = "" ∧
      (ToolExecutor.Execute e w fc).err ≠ none ∧
      (ToolExecutor.Execute e w fc).exec = e ∧
      (ToolExecutor.Execute e w fc).effects = []) :=
  ⟨execute_unknown_name e w fc, execute_invalid_args e w fc⟩

theorem dispatcher_guards_witness :
    (("bogus_tool" : String) ∉ registryNames ∧
      ToolExecutor.Execute freshExecutor idleWorld ⟨"bogus_tool", []⟩ =
        ⟨"", some (GoError.ofString ("unknown function call: " ++ "bogus_tool")),
          freshExecutor, []⟩) ∧
    (("create_file" : String) ∈ registryNames ∧
      ((ToolExecutor.Execute freshExecutor idleWorld
          ⟨"create_file", [("path", GoValue.str "x.txt")]⟩).output = "" ∧
        (ToolExecutor.Execute freshExecutor idleWorld
          ⟨"create_file", [("path", GoValue.str "x.txt")]⟩).err ≠ none ∧
        (ToolExecutor.Execute freshExecutor idleWorld
          ⟨"create_file", [("path", GoValue.str "x.txt")]⟩).exec = freshExecutor ∧
        (ToolExecutor.Execute freshExecutor idleWorld
          ⟨"create_file", [("path", GoValue.str "x.txt")]⟩).effects = [])) :=
  ⟨⟨by decide,
      (dispatcher_guards freshExecutor idleWorld ⟨"bogus_tool", []⟩).1 (by decide)⟩,
    ⟨by decide,
      (dispatcher_guards freshExecutor idleWorld
          ⟨"create_file", [("path", GoValue.str "x.txt")]⟩).2 (by decide) (by decide)⟩⟩
